import Mathlib

/-!
Shallow embedding of the realtime audio subsystem of the DiagnoSphere
browser application: the audio codec helpers (`float32ToBase64`,
`decodeBase64`, `decodeAudioData`), the playback scheduler, the live-session
controller (`connect`, `disconnect`, the `onmessage` callback) and the
transcript sink (`handleLiveTranscript`).

Modelling conventions:
* JavaScript numbers are modelled as exact rationals (`ℚ`); the spec's
  claims are about the ideal arithmetic of the pipeline, not about float
  rounding.
* Storing a double into an `Int16Array` performs ToInt16: truncation toward
  zero followed by reduction modulo 2^16 into the signed 16-bit range
  (`toInt16` below).
* `btoa`/`atob` are modelled by `base64Encode`/`base64Decode` over byte
  lists; `atob` rejecting a malformed payload is `none`.
* Constructing an `Int16Array` over a buffer whose byte length is odd
  throws a RangeError in JavaScript; `decodeAudioData` returns `none`
  there (the spec's `ShortBuffer` failure).  `AudioContext.createBuffer`
  truncates its fractional `length` argument (WebIDL unsigned-long
  conversion) and throws NotSupportedError when the resulting frame count
  is zero (or the channel count is zero, which also drives the truncated
  frame count to zero); `decodeAudioData` returns `none` there as well.
* Effects (starting and stopping `AudioBufferSourceNode`s) are returned
  as data: a step returns the list of sources it stopped.
-/

namespace Diagnosphere

/-! ### Base64 (the `btoa` / `atob` platform primitives) -/

/-- The base64 alphabet used by `btoa`/`atob`. -/
def b64Alphabet : List Char :=
  "ABCDEFGHIJKLMNOPQRSTUVWXYZabcdefghijklmnopqrstuvwxyz0123456789+/".toList

/-- The character standing for the 6-bit value `n`. -/
def b64Char (n : Nat) : Char := b64Alphabet.getD n '='

/-- The 6-bit value of a base64 character; `none` for a character outside
the alphabet (padding included). -/
def b64Index (c : Char) : Option Nat := b64Alphabet.indexOf? c

/-- `btoa` on a byte list: groups of three bytes become four characters,
a trailing group of one or two bytes is padded with `=`. -/
def base64Encode : List Nat → List Char
  | [] => []
  | [a] => [b64Char (a / 4), b64Char (a % 4 * 16), '=', '=']
  | [a, b] => [b64Char (a / 4), b64Char (a % 4 * 16 + b / 16), b64Char (b % 16 * 4), '=']
  | a :: b :: c :: rest =>
      b64Char (a / 4) :: b64Char (a % 4 * 16 + b / 16) ::
        b64Char (b % 16 * 4 + c / 64) :: b64Char (c % 64) :: base64Encode rest

/-- `atob`: decodes four characters to three bytes, handling the two padded
final-group shapes; `none` on any malformed input (a character outside the
alphabet, stray padding, or a length that is not a multiple of four). -/
def base64Decode : List Char → Option (List Nat)
  | [] => some []
  | c1 :: c2 :: c3 :: c4 :: rest =>
      if c3 = '=' ∧ c4 = '=' ∧ rest = [] then do
        let n1 ← b64Index c1
        let n2 ← b64Index c2
        some [n1 * 4 + n2 / 16]
      else if c4 = '=' ∧ rest = [] then do
        let n1 ← b64Index c1
        let n2 ← b64Index c2
        let n3 ← b64Index c3
        some [n1 * 4 + n2 / 16, n2 % 16 * 16 + n3 / 4]
      else do
        let n1 ← b64Index c1
        let n2 ← b64Index c2
        let n3 ← b64Index c3
        let n4 ← b64Index c4
        let tail ← base64Decode rest
        some ((n1 * 4 + n2 / 16) :: (n2 % 16 * 16 + n3 / 4) :: (n3 % 4 * 64 + n4) :: tail)
  | _ => none

/-! ### 16-bit PCM conversion -/

/-- Truncation of a rational toward zero, as JavaScript's ToIntegerOrInfinity
does on a finite double. -/
def ratTrunc (q : ℚ) : ℤ := if q < 0 then -⌊-q⌋ else ⌊q⌋

/-- Reduction of an integer modulo 2^16 into the signed 16-bit range. -/
def int16OfInt (n : ℤ) : ℤ :=
  if 32768 ≤ n % 65536 then n % 65536 - 65536 else n % 65536

/-- JavaScript's ToInt16, applied when a number is stored into an
`Int16Array`: truncate toward zero, reduce modulo 2^16, reinterpret as a
signed 16-bit value. -/
def toInt16 (q : ℚ) : ℤ := int16OfInt (ratTrunc q)

/-- One iteration of the encoding loop of `float32ToBase64` (source lines
188-192): clamp the sample to [-1, 1], scale a negative sample by 0x8000 and
a non-negative one by 0x7FFF, store as a 16-bit integer. -/
def sampleToInt16 (x : ℚ) : ℤ :=
  let s := max (-1) (min 1 x)
  toInt16 (if s < 0 then s * 32768 else s * 32767)

/-- The two little-endian bytes of a signed 16-bit value, as reading the
underlying buffer of an `Int16Array` yields them. -/
def int16ToBytes (n : ℤ) : List Nat :=
  [(n % 65536).toNat % 256, (n % 65536).toNat / 256]

/-- The byte view of the `Int16Array` built by the encoding loop: every
sample clamped, scaled and stored, then read back as little-endian bytes. -/
def transportBytes (data : List ℚ) : List Nat :=
  (data.map sampleToInt16).flatMap int16ToBytes

/-- `float32ToBase64` (source lines 185-201): clamp and scale every sample
to 16-bit PCM, view the result as little-endian bytes, base64-encode.  A
pure function of its input. -/
def float32ToBase64 (data : List ℚ) : String :=
  String.mk (base64Encode (transportBytes data))

/-- `decodeBase64` (source lines 174-182): `atob` into a byte array. -/
def decodeBase64 (s : String) : Option (List Nat) := base64Decode s.data

/-- Reinterpret an unsigned 16-bit value as signed, as viewing bytes
through an `Int16Array` does. -/
def sint16 (n : Nat) : ℤ := if n < 32768 then (n : ℤ) else (n : ℤ) - 65536

/-- The 16-bit values of a little-endian byte buffer (`new Int16Array(buffer)`
on an even-length buffer). -/
def bytesToInt16 : List Nat → List ℤ
  | lo :: hi :: rest => sint16 (lo + 256 * hi) :: bytesToInt16 rest
  | _ => []

/-- A decoded playback buffer: the result shape of
`AudioContext.createBuffer` after the fill loop of `decodeAudioData`. -/
structure ABuffer where
  sampleRate : ℚ
  frameCount : Nat
  channels : List (List ℚ)
deriving DecidableEq, Repr

/-- Playback duration in seconds of a decoded buffer. -/
def ABuffer.duration (b : ABuffer) : ℚ := (b.frameCount : ℚ) / b.sampleRate

/-- `decodeAudioData` (source lines 204-221): view the bytes as 16-bit PCM
(the first `none` models the RangeError thrown by `new Int16Array(buffer)`
on an odd byte length — the spec's `ShortBuffer`), take
`frameCount = dataInt16.length / numChannels` truncated, as the WebIDL
unsigned-long conversion at the `createBuffer` call does (the second
`none` models the NotSupportedError `createBuffer` throws when that
truncated frame count is zero — also covering a zero channel count, whose
JavaScript `Infinity` frame count converts to zero), then de-interleave
the frames over the channels, normalising each sample by dividing by
32768. -/
def decodeAudioData (data : List Nat) (sampleRate : ℚ) (numChannels : Nat) :
    Option ABuffer :=
  if data.length % 2 ≠ 0 then none
  else
    let dataInt16 := bytesToInt16 data
    let frameCount := dataInt16.length / numChannels
    if frameCount = 0 then none
    else
      some ⟨sampleRate, frameCount,
        (List.range numChannels).map fun ch =>
          (List.range frameCount).map fun i =>
            ((dataInt16.getD (i * numChannels + ch) 0 : ℚ) / 32768)⟩

/-! ### Playback scheduler and live-session state -/

/-- A scheduled `AudioBufferSourceNode`: its start time on the output clock
and the duration of its buffer. -/
structure Source where
  start : ℚ
  dur : ℚ
deriving DecidableEq, Repr

/-- The playback scheduler's mutable refs: `nextStartTimeRef` and
`scheduledSourcesRef` (kept in insertion order). -/
structure SchedulerState where
  nextStartTime : ℚ
  scheduled : List Source
deriving DecidableEq, Repr

/-- The audio-scheduling step of the `onmessage` handler (source lines
376-389) for a decoded buffer of duration `dur`, at output-clock time `t`:
`startTime = max(currentTime, nextStartTimeRef)`, the source starts there,
`nextStartTimeRef` advances to `startTime + dur`, the source joins the
active set.  Returns the new state and the chosen start time. -/
def scheduleAudio (t dur : ℚ) (st : SchedulerState) : SchedulerState × ℚ :=
  let startTime := max t st.nextStartTime
  (⟨startTime + dur, st.scheduled ++ [⟨startTime, dur⟩]⟩, startTime)

/-- `source.onended` (source line 389): a source that finished naturally
leaves the active set. -/
def sourceEnded (s : Source) (st : SchedulerState) : SchedulerState :=
  ⟨st.nextStartTime, st.scheduled.erase s⟩

/-- A speaker role of a conversation entry. -/
inductive Role
  | user
  | model
deriving DecidableEq, Repr

/-- One entry of the transcript sink (the `ChatMessage` record). -/
structure ChatMessage where
  role : Role
  content : String
deriving DecidableEq, Repr

/-- The state owned by the `useLiveAPI` hook and its host component: the
session/audio refs, the two state flags, and the transcript log the
`onTranscript` callback appends to. -/
structure LiveState where
  session : Option Nat
  inputSource : Option Unit
  processor : Option Unit
  audioCtx : Option Unit
  sched : SchedulerState
  isConnected : Bool
  isError : Bool
  transcript : List ChatMessage
deriving DecidableEq, Repr

/-- `handleLiveTranscript` (source lines 746-754), reached through the
hook's `onTranscript` callback: append one entry, tagged by the speaker,
to the chat history. -/
def handleLiveTranscript (text : String) (isUser : Bool) (s : LiveState) : LiveState :=
  { s with transcript :=
      s.transcript ++ [⟨if isUser then Role.user else Role.model, text⟩] }

/-- An inbound `LiveServerMessage`, reduced to the four fields the handler
reads: the two transcription fragments, the base64 audio payload of the
model turn, and the interruption flag. -/
structure LiveMsg where
  inputTranscription : Option String
  outputTranscription : Option String
  audioData : Option String
  interrupted : Bool
deriving DecidableEq, Repr

/-- The interruption step of `onmessage` (source lines 393-399): stop every
scheduled source, clear the active set, reset `nextStartTimeRef` to 0.
Returns the stopped sources. -/
def handleInterrupted (msg : LiveMsg) (s : LiveState) : LiveState × List Source :=
  if msg.interrupted then
    ({ s with sched := ⟨0, []⟩ }, s.sched.scheduled)
  else (s, [])

/-- The `onmessage` callback (source lines 362-400) at output-clock time
`t`: first the transcription fragments (input before output), then the
audio payload — guarded by `audioData && audioContextRef.current`, decoded
at the 24 kHz mono defaults and scheduled — then the interruption flag.
A decode failure throws inside the async callback, so the interruption
step is not reached on that path.  Returns the new state and the sources
stopped by an interruption. -/
def onmessage (t : ℚ) (msg : LiveMsg) (s : LiveState) : LiveState × List Source :=
  let s1 := match msg.inputTranscription with
    | some text => handleLiveTranscript text true s
    | none => s
  let s2 := match msg.outputTranscription with
    | some text => handleLiveTranscript text false s1
    | none => s1
  match msg.audioData, s2.audioCtx with
  | some b64, some _ =>
      match decodeBase64 b64 with
      | none => (s2, [])
      | some bytes =>
          match decodeAudioData bytes 24000 1 with
          | none => (s2, [])
          | some buffer =>
              let s3 := { s2 with sched := (scheduleAudio t buffer.duration s2.sched).1 }
              handleInterrupted msg s3
  | _, _ => handleInterrupted msg s2

/-- `disconnect` (source lines 264-293): drop the session ref, disconnect
and drop the input nodes, stop every scheduled source (each stop wrapped in
try/catch), clear the active set, reset `nextStartTimeRef` to 0, close and
drop the audio context, set `isConnected` false.  The error flag and the
transcript are untouched; the session itself is only dereferenced, never
closed.  Returns the stopped sources. -/
def disconnect (s : LiveState) : LiveState × List Source :=
  ({ session := none
     inputSource := none
     processor := none
     audioCtx := none
     sched := ⟨0, []⟩
     isConnected := false
     isError := s.isError
     transcript := s.transcript }, s.sched.scheduled)

/-! ### connect -/

/-- The spec's error taxonomy for `connect` failures; the source's uniform
catch block classifies by which setup step threw. -/
inductive ConnErr
  | authFailure
  | permissionDenied
deriving DecidableEq, Repr

/-- `getApiKey` (source lines 224-244): the Vite env key if present and
non-empty, else the process env key if present and non-empty, else
`undefined` (an empty string is falsy and treated as absent). -/
def getApiKey (viteKey processKey : Option String) : Option String :=
  let k1 := match viteKey with
    | some k => k
    | none => ""
  let k2 := if k1 = "" then
      match processKey with
      | some k => k
      | none => ""
    else k1
  if k2 = "" then none else some k2

/-- The synchronous result of a `connect()` call: the state when the async
function returns, the classified error its catch block swallowed (the
caller never sees a throw), and whether `ai.live.connect` was reached —
only then can the `onopen`/`onmessage` callbacks ever fire. -/
structure ConnectResult where
  state : LiveState
  err : Option ConnErr
  liveStarted : Bool
deriving DecidableEq, Repr

/-- `connect` (source lines 295-436): clear the error flag, create the
output audio context, then check the API key — a missing key throws, the
catch block sets the error flag and `isConnected := false` (source lines
431-435).  With a key, acquire the microphone (a refusal rejects into the
same catch block), install the input nodes, and call `ai.live.connect`;
`isConnected` only becomes true later, in the `onopen` callback. -/
def connect (apiKey : Option String) (micOk : Bool) (s : LiveState) : ConnectResult :=
  let s1 := { s with isError := false, audioCtx := some () }
  match apiKey with
  | none => ⟨{ s1 with isError := true, isConnected := false }, some ConnErr.authFailure, false⟩
  | some _ =>
      if micOk then
        ⟨{ s1 with inputSource := some (), processor := some () }, none, true⟩
      else
        ⟨{ s1 with isError := true, isConnected := false }, some ConnErr.permissionDenied, false⟩

/-- One inbound transcript fragment (text and isUser flag) as the
conversation entry `handleLiveTranscript` appends for it. -/
def fragEntry (f : String × Bool) : ChatMessage :=
  ⟨if f.2 then Role.user else Role.model, f.1⟩

/-- A sequence of transcript fragments delivered one by one to
`handleLiveTranscript`, in arrival order. -/
def processFragments (frags : List (String × Bool)) (s : LiveState) : LiveState :=
  frags.foldl (fun acc f => handleLiveTranscript f.1 f.2 acc) s

/-- Two scheduled sources that do not overlap: the second starts no
earlier than the first ends. -/
def chained (a b : Source) : Prop := a.start + a.dur ≤ b.start

instance : DecidableRel chained := fun _ _ => inferInstanceAs (Decidable (_ ≤ _))

/-- A run of the scheduler over a list of inbound audio events, each an
output-clock reading paired with a buffer duration. -/
def runSchedule (evs : List (ℚ × ℚ)) (st : SchedulerState) : SchedulerState :=
  evs.foldl (fun acc e => (scheduleAudio e.1 e.2 acc).1) st

/-- The scheduler's standing invariant: the active set is pairwise
non-overlapping, every member has nonnegative duration, and every member
ends no later than `nextStartTimeRef`. -/
def SchedInv (st : SchedulerState) : Prop :=
  st.scheduled.Pairwise chained ∧
  ∀ a ∈ st.scheduled, 0 ≤ a.dur ∧ a.start + a.dur ≤ st.nextStartTime

/-! ### Helper lemmas: base64 -/

theorem b64Index_b64Char : ∀ n < 64, b64Index (b64Char n) = some n := by decide

theorem b64Char_ne_pad : ∀ n < 64, b64Char n ≠ '=' := by decide

theorem base64_roundtrip : ∀ bs : List Nat, (∀ b ∈ bs, b < 256) →
    base64Decode (base64Encode bs) = some bs := by
  intro bs
  induction bs using base64Encode.induct with
  | case1 => intro _; rfl
  | case2 a =>
      intro h
      have ha : a < 256 := h a (by simp)
      have h1 : a / 4 < 64 := by omega
      have h2 : a % 4 * 16 < 64 := by omega
      simp only [base64Encode, base64Decode, and_self, if_true,
        b64Index_b64Char _ h1, b64Index_b64Char _ h2]
      simp only [Option.pure_def, Option.bind_eq_bind, Option.some_bind,
        Option.some.injEq, List.cons.injEq, and_true]
      omega
  | case3 a b =>
      intro h
      have ha : a < 256 := h a (by simp)
      have hb : b < 256 := h b (by simp)
      have h1 : a / 4 < 64 := by omega
      have h2 : a % 4 * 16 + b / 16 < 64 := by omega
      have h3 : b % 16 * 4 < 64 := by omega
      simp only [base64Encode, base64Decode, and_self, and_true, true_and, if_true,
        b64Index_b64Char _ h1, b64Index_b64Char _ h2, b64Index_b64Char _ h3]
      rw [if_neg (b64Char_ne_pad _ h3)]
      simp only [Option.pure_def, Option.bind_eq_bind, Option.some_bind,
        Option.some.injEq, List.cons.injEq, and_true]
      omega
  | case4 a b c rest ih =>
      intro h
      have ha : a < 256 := h a (by simp)
      have hb : b < 256 := h b (by simp)
      have hc : c < 256 := h c (by simp)
      have h1 : a / 4 < 64 := by omega
      have h2 : a % 4 * 16 + b / 16 < 64 := by omega
      have h3 : b % 16 * 4 + c / 64 < 64 := by omega
      have h4 : c % 64 < 64 := by omega
      have htail := ih (fun x hx => h x (by simp [hx]))
      have hne1 : ¬(b64Char (b % 16 * 4 + c / 64) = '=' ∧ b64Char (c % 64) = '=' ∧
          base64Encode rest = []) :=
        fun hcon => b64Char_ne_pad _ h3 hcon.1
      have hne2 : ¬(b64Char (c % 64) = '=' ∧ base64Encode rest = []) :=
        fun hcon => b64Char_ne_pad _ h4 hcon.1
      simp only [base64Encode, base64Decode, b64Index_b64Char _ h1,
        b64Index_b64Char _ h2, b64Index_b64Char _ h3, b64Index_b64Char _ h4]
      rw [if_neg hne1, if_neg hne2]
      simp only [Option.pure_def, Option.bind_eq_bind, Option.some_bind, htail,
        Option.some.injEq, List.cons.injEq, and_true]
      omega

/-! ### Helper lemmas: truncation and the 16-bit range -/

theorem ratTrunc_le_self (q : ℚ) (h : 0 ≤ q) : (ratTrunc q : ℚ) ≤ q := by
  rw [ratTrunc, if_neg (not_lt.mpr h)]
  exact Int.floor_le q

theorem lt_ratTrunc_add_one (q : ℚ) (h : 0 ≤ q) : q - 1 < (ratTrunc q : ℚ) := by
  rw [ratTrunc, if_neg (not_lt.mpr h)]
  exact Int.sub_one_lt_floor q

theorem self_le_ratTrunc (q : ℚ) (h : q < 0) : q ≤ (ratTrunc q : ℚ) := by
  rw [ratTrunc, if_pos h, Int.cast_neg]
  have := Int.floor_le (-q)
  linarith

theorem ratTrunc_lt_self_add_one (q : ℚ) (h : q < 0) : (ratTrunc q : ℚ) < q + 1 := by
  rw [ratTrunc, if_pos h, Int.cast_neg]
  have := Int.sub_one_lt_floor (-q)
  linarith

theorem int16OfInt_eq_self (n : ℤ) (h1 : -32768 ≤ n) (h2 : n ≤ 32767) :
    int16OfInt n = n := by
  simp only [int16OfInt]
  split <;> omega

/-- The clamped sample always lies in [-1, 1]. -/
theorem clamp_mem (x : ℚ) : -1 ≤ max (-1) (min 1 x) ∧ max (-1) (min 1 x) ≤ 1 := by
  refine ⟨le_max_left _ _, max_le (by norm_num) (min_le_left _ _)⟩

/-- Inside the 16-bit range, ToInt16 is plain truncation toward zero, and
the result stays inside the range. -/
theorem toInt16_eq_ratTrunc (v : ℚ) (h1 : -32768 ≤ v) (h2 : v ≤ 32767) :
    toInt16 v = ratTrunc v ∧ -32768 ≤ ratTrunc v ∧ ratTrunc v ≤ 32767 := by
  by_cases hneg : v < 0
  · have hq1 : v ≤ (ratTrunc v : ℚ) := self_le_ratTrunc _ hneg
    have hq2 : (ratTrunc v : ℚ) < v + 1 := ratTrunc_lt_self_add_one _ hneg
    have hn1 : -32768 ≤ ratTrunc v := by exact_mod_cast le_trans h1 hq1
    have hn2 : ratTrunc v < 32768 := by
      exact_mod_cast (by linarith : (ratTrunc v : ℚ) < 32768)
    exact ⟨int16OfInt_eq_self _ hn1 (by omega), hn1, by omega⟩
  · have hq1 : (ratTrunc v : ℚ) ≤ v := ratTrunc_le_self _ (not_lt.mp hneg)
    have hq2 : v - 1 < (ratTrunc v : ℚ) := lt_ratTrunc_add_one _ (not_lt.mp hneg)
    have hn2 : ratTrunc v ≤ 32767 := by exact_mod_cast le_trans hq1 h2
    have hn1 : -1 < ratTrunc v := by
      exact_mod_cast (by linarith : (-1 : ℚ) < (ratTrunc v : ℚ))
    exact ⟨int16OfInt_eq_self _ (by omega) hn2, by omega, hn2⟩

/-- The encoding loop's stored value, characterised: truncation of the
clamped sample scaled by the asymmetric factor, always inside the signed
16-bit range (so no modular wraparound occurs). -/
theorem sampleToInt16_spec (x : ℚ) :
    sampleToInt16 x =
      (if max (-1) (min 1 x) < 0 then ratTrunc (max (-1) (min 1 x) * 32768)
       else ratTrunc (max (-1) (min 1 x) * 32767)) ∧
    -32768 ≤ sampleToInt16 x ∧ sampleToInt16 x ≤ 32767 := by
  obtain ⟨hlo, hhi⟩ := clamp_mem x
  by_cases hneg : max (-1) (min 1 x) < 0
  · have h1 : (-32768 : ℚ) ≤ max (-1) (min 1 x) * 32768 := by nlinarith
    have h2 : max (-1) (min 1 x) * 32768 ≤ 32767 := by nlinarith
    obtain ⟨he, hb1, hb2⟩ := toInt16_eq_ratTrunc _ h1 h2
    simp only [sampleToInt16, if_pos hneg]
    refine ⟨he, ?_, ?_⟩ <;> rw [he] <;> omega
  · have h1 : (-32768 : ℚ) ≤ max (-1) (min 1 x) * 32767 := by nlinarith
    have h2 : max (-1) (min 1 x) * 32767 ≤ 32767 := by nlinarith
    obtain ⟨he, hb1, hb2⟩ := toInt16_eq_ratTrunc _ h1 h2
    simp only [sampleToInt16, if_neg hneg]
    refine ⟨he, ?_, ?_⟩ <;> rw [he] <;> omega

/-! ### Helper lemmas: byte packing and unpacking -/

theorem int16ToBytes_lt (n : ℤ) : ∀ b ∈ int16ToBytes n, b < 256 := by
  intro b hb
  have h1 : (0 : ℤ) ≤ n % 65536 := Int.emod_nonneg n (by norm_num)
  have h2 : n % 65536 < 65536 := Int.emod_lt_of_pos n (by norm_num)
  simp only [int16ToBytes, List.mem_cons, List.not_mem_nil, or_false] at hb
  rcases hb with rfl | rfl <;> omega

theorem bytesToInt16_int16ToBytes (n : ℤ) (h1 : -32768 ≤ n) (h2 : n ≤ 32767)
    (rest : List Nat) :
    bytesToInt16 (int16ToBytes n ++ rest) = n :: bytesToInt16 rest := by
  have h3 : (0 : ℤ) ≤ n % 65536 := Int.emod_nonneg n (by norm_num)
  have h4 : n % 65536 < 65536 := Int.emod_lt_of_pos n (by norm_num)
  have hu : ((n % 65536).toNat : ℤ) = n % 65536 := Int.toNat_of_nonneg h3
  simp only [int16ToBytes, List.cons_append, List.append_eq, List.nil_append,
    bytesToInt16, List.cons.injEq, and_true]
  simp only [sint16]
  split <;> omega

theorem transportBytes_lt (x : List ℚ) : ∀ b ∈ transportBytes x, b < 256 := by
  intro b hb
  simp only [transportBytes, List.mem_flatMap, List.mem_map] at hb
  obtain ⟨n, ⟨q, -, rfl⟩, hbn⟩ := hb
  exact int16ToBytes_lt _ b hbn

theorem transportBytes_length (x : List ℚ) :
    (transportBytes x).length = 2 * x.length := by
  induction x with
  | nil => rfl
  | cons q rest ih =>
      simp only [transportBytes, List.map_cons, List.flatMap_cons,
        List.length_append, int16ToBytes, List.length_cons, List.length_nil,
        List.length_map] at *
      omega

theorem bytesToInt16_transport (x : List ℚ) :
    bytesToInt16 (transportBytes x) = x.map sampleToInt16 := by
  induction x with
  | nil => rfl
  | cons q rest ih =>
      obtain ⟨-, hb1, hb2⟩ := sampleToInt16_spec q
      simp only [transportBytes, List.map_cons, List.flatMap_cons] at *
      rw [bytesToInt16_int16ToBytes _ hb1 hb2, ih]

/-- The encoder's output decodes (`atob`) back to exactly the bytes of the
16-bit samples it packed. -/
theorem transport_roundtrip (x : List ℚ) :
    decodeBase64 (float32ToBase64 x) = some (transportBytes x) := by
  rw [float32ToBase64, decodeBase64]
  exact base64_roundtrip _ (transportBytes_lt x)

/-! ### Helper lemmas: the playback decoder -/

theorem bytesToInt16_length : ∀ l : List Nat, (bytesToInt16 l).length = l.length / 2
  | [] => rfl
  | [_] => by simp [bytesToInt16]
  | lo :: hi :: rest => by
      have ih := bytesToInt16_length rest
      simp only [bytesToInt16, List.length_cons]
      omega

theorem bytesToInt16_getD : ∀ (l : List Nat) (k : Nat), 2 * k + 1 < l.length →
    (bytesToInt16 l).getD k 0 =
      sint16 (l.getD (2 * k) 0 + 256 * l.getD (2 * k + 1) 0)
  | [], k, hk => by simp at hk
  | [_], k, hk => by
      simp only [List.length_cons, List.length_nil] at hk
      omega
  | lo :: hi :: rest, 0, _ => by simp [bytesToInt16]
  | lo :: hi :: rest, k + 1, hk => by
      have hk2 : 2 * k + 1 < rest.length := by
        simp only [List.length_cons] at hk
        omega
      have ih := bytesToInt16_getD rest k hk2
      have h2 : 2 * (k + 1) = 2 * k + 1 + 1 := by omega
      simp only [bytesToInt16, List.getD_cons_succ, h2]
      exact ih

theorem range_map_getD_lt {β : Type} (n : Nat) (f : Nat → β) (d : β) (i : Nat)
    (h : i < n) : ((List.range n).map f).getD i d = f i := by
  rw [List.getD_eq_getElem _ _ (by simpa using h)]
  simp

theorem range_map_getD {α β : Type} (l : List α) (d : α) (g : α → β) :
    (List.range l.length).map (fun i => g (l.getD i d)) = l.map g := by
  apply List.ext_getElem
  · simp
  · intro i h1 h2
    simp only [List.getElem_map, List.getElem_range]
    rw [List.getD_eq_getElem]

/-- The playback decoder at its call-site defaults (24 kHz mono), on a
nonempty even-length payload: one channel holding every 16-bit sample
divided by 32768. -/
theorem decodeAudioData_mono (data : List Nat) (rate : ℚ) (h : data.length % 2 = 0)
    (hpos : 0 < data.length) :
    decodeAudioData data rate 1 =
      some ⟨rate, data.length / 2,
        [(bytesToInt16 data).map (fun n : ℤ => (n : ℚ) / 32768)]⟩ := by
  have hlen := bytesToInt16_length data
  rw [decodeAudioData, if_neg (by omega), if_neg (by rw [Nat.div_one, hlen]; omega)]
  have hr1 : List.range 1 = [0] := rfl
  simp only [Nat.div_one, hr1, List.map_cons, List.map_nil, mul_one, add_zero, hlen]
  rw [show data.length / 2 = (bytesToInt16 data).length from hlen.symm,
    range_map_getD (bytesToInt16 data) 0 (fun n : ℤ => (n : ℚ) / 32768)]

/-! ### Helper lemmas: the scheduler invariant -/

theorem schedInv_empty (n : ℚ) : SchedInv ⟨n, []⟩ := by
  constructor
  · exact List.Pairwise.nil
  · intro a ha
    simp at ha

theorem scheduleAudio_inv (t d : ℚ) (st : SchedulerState) (hd : 0 ≤ d)
    (h : SchedInv st) : SchedInv (scheduleAudio t d st).1 := by
  obtain ⟨hp, hm⟩ := h
  constructor
  · simp only [scheduleAudio]
    rw [List.pairwise_append]
    refine ⟨hp, List.pairwise_singleton _ _, ?_⟩
    intro a ha b hb
    simp only [List.mem_singleton] at hb
    subst hb
    calc a.start + a.dur ≤ st.nextStartTime := (hm a ha).2
      _ ≤ max t st.nextStartTime := le_max_right _ _
  · intro a ha
    simp only [scheduleAudio, List.mem_append, List.mem_singleton] at ha
    rcases ha with ha | rfl
    · obtain ⟨h1, h2⟩ := hm a ha
      refine ⟨h1, ?_⟩
      calc a.start + a.dur ≤ st.nextStartTime := h2
        _ ≤ max t st.nextStartTime := le_max_right _ _
        _ ≤ max t st.nextStartTime + d := by linarith
    · exact ⟨hd, le_refl _⟩

theorem scheduleAudio_nst_mono (t d : ℚ) (st : SchedulerState) (hd : 0 ≤ d) :
    st.nextStartTime ≤ (scheduleAudio t d st).1.nextStartTime := by
  simp only [scheduleAudio]
  have := le_max_right t st.nextStartTime
  linarith

theorem runSchedule_inv (evs : List (ℚ × ℚ)) (st : SchedulerState)
    (hd : ∀ e ∈ evs, 0 ≤ e.2) (h : SchedInv st) : SchedInv (runSchedule evs st) := by
  induction evs generalizing st with
  | nil => exact h
  | cons e rest ih =>
      exact ih _ (fun x hx => hd x (by simp [hx]))
        (scheduleAudio_inv e.1 e.2 st (hd e (by simp)) h)

theorem runSchedule_nst_mono (evs : List (ℚ × ℚ)) (st : SchedulerState)
    (hd : ∀ e ∈ evs, 0 ≤ e.2) :
    st.nextStartTime ≤ (runSchedule evs st).nextStartTime := by
  induction evs generalizing st with
  | nil => exact le_refl _
  | cons e rest ih =>
      calc st.nextStartTime ≤ (scheduleAudio e.1 e.2 st).1.nextStartTime :=
            scheduleAudio_nst_mono e.1 e.2 st (hd e (by simp))
        _ ≤ _ := ih _ (fun x hx => hd x (by simp [hx]))

theorem runSchedule_append (l1 l2 : List (ℚ × ℚ)) (st : SchedulerState) :
    runSchedule (l1 ++ l2) st = runSchedule l2 (runSchedule l1 st) := by
  simp [runSchedule]

/-! ### The claims -/

/-- Claim C1: for any sequence of inbound audio payloads processed without
an interruption, each newly scheduled buffer's start time equals
`max(current output-clock time, nextStartTimeRef)` and is at least the
previous buffer's start time plus its duration; `nextStartTimeRef` is
monotonically non-decreasing along the run (it is only ever reset to zero
by an explicit interruption or disconnect, neither of which occurs here);
hence the scheduled buffers never overlap.  The final conjunct licenses the
nonnegative-duration hypothesis: every buffer the decoder produces at the
24 kHz call-site default has nonnegative duration. -/
theorem C1_scheduling_invariant (evs : List (ℚ × ℚ)) (n0 : ℚ)
    (hd : ∀ e ∈ evs, 0 ≤ e.2) :
    (∀ t d st, (scheduleAudio t d st).2 = max t st.nextStartTime ∧
        (scheduleAudio t d st).1.nextStartTime = max t st.nextStartTime + d) ∧
    (∀ pre suf, evs = pre ++ suf →
        (runSchedule pre ⟨n0, []⟩).nextStartTime ≤
          (runSchedule evs ⟨n0, []⟩).nextStartTime) ∧
    (runSchedule evs ⟨n0, []⟩).scheduled.Chain' chained ∧
    (runSchedule evs ⟨n0, []⟩).scheduled.Pairwise chained ∧
    (∀ bytes buf, decodeAudioData bytes 24000 1 = some buf → 0 ≤ buf.duration) := by
  refine ⟨fun t d st => ⟨rfl, rfl⟩, ?_, ?_, ?_, ?_⟩
  · intro pre suf hsplit
    subst hsplit
    rw [runSchedule_append]
    exact runSchedule_nst_mono suf _ fun e he => hd e (List.mem_append_right _ he)
  · exact ((runSchedule_inv evs _ hd (schedInv_empty n0)).1).chain'
  · exact (runSchedule_inv evs _ hd (schedInv_empty n0)).1
  · intro bytes buf hbuf
    simp only [decodeAudioData] at hbuf
    split at hbuf
    · exact absurd hbuf (by simp)
    · split at hbuf
      · exact absurd hbuf (by simp)
      · rw [← Option.some.inj hbuf]
        have : (0 : ℚ) ≤ ((bytesToInt16 bytes).length / 1 : Nat) := by positivity
        simpa [ABuffer.duration] using div_nonneg this (by norm_num)

/-- Witness for C1 at a concrete event list with nonnegative durations. -/
theorem C1_witness :
    (∀ e ∈ [((0 : ℚ), (1 : ℚ)), (3, 2), (1, 1)], 0 ≤ e.2) ∧
    (runSchedule [((0 : ℚ), (1 : ℚ)), (3, 2), (1, 1)] ⟨0, []⟩).scheduled.Pairwise
      chained :=
  ⟨by norm_num, (C1_scheduling_invariant _ 0 (by norm_num)).2.2.2.1⟩

/-- Claim C2: on an interruption message, every buffer in the active
scheduled set is stopped and discarded, the active set becomes empty,
`nextStartTimeRef` is reset to 0, and the next inbound audio payload is
scheduled by the same scheduling step at `max(current clock time, 0)`,
not chained to pre-interruption timing. -/
theorem C2_interruption_flush (s : LiveState) (t1 t2 d : ℚ) :
    (onmessage t1 ⟨none, none, none, true⟩ s).2 = s.sched.scheduled ∧
    (onmessage t1 ⟨none, none, none, true⟩ s).1.sched.scheduled = [] ∧
    (onmessage t1 ⟨none, none, none, true⟩ s).1.sched.nextStartTime = 0 ∧
    (scheduleAudio t2 d (onmessage t1 ⟨none, none, none, true⟩ s).1.sched).2 =
      max t2 0 := by
  refine ⟨?_, ?_, ?_, ?_⟩ <;> simp [onmessage, handleInterrupted, scheduleAudio]

/-- Claim C3: the transport encoder clamps each sample to [-1, 1], scales a
negative clamped sample by 0x8000 = 32768 and a non-negative one by
0x7FFF = 32767 (truncating to a signed 16-bit integer, with no modular
wraparound), packs the 16-bit integers little-endian and base64-encodes
the bytes.  The first conjunct exhibits the packing: `atob` on the output
returns exactly the little-endian bytes of the stored samples, and the
byte view reassembles to exactly the stored 16-bit values.  Purity and
determinism hold because `float32ToBase64` is a function of its input
alone. -/
theorem C3_encoder_spec (data : List ℚ) :
    decodeBase64 (float32ToBase64 data) = some (transportBytes data) ∧
    bytesToInt16 (transportBytes data) = data.map sampleToInt16 ∧
    (transportBytes data).length = 2 * data.length ∧
    (∀ x : ℚ, -1 ≤ max (-1) (min 1 x) ∧ max (-1) (min 1 x) ≤ 1 ∧
      sampleToInt16 x =
        (if max (-1) (min 1 x) < 0 then ratTrunc (max (-1) (min 1 x) * 32768)
         else ratTrunc (max (-1) (min 1 x) * 32767)) ∧
      -32768 ≤ sampleToInt16 x ∧ sampleToInt16 x ≤ 32767) := by
  refine ⟨transport_roundtrip data, bytesToInt16_transport data,
    transportBytes_length data, fun x => ?_⟩
  obtain ⟨h1, h2⟩ := clamp_mem x
  obtain ⟨h3, h4, h5⟩ := sampleToInt16_spec x
  exact ⟨h1, h2, h3, h4, h5⟩

/-- Counterexample to claim C4 as stated: at the sample 65535/65536 the
value recovered from the 16-bit encoding deviates from the original by
3/65536, which exceeds one quantization step 1/32768 = 2/65536.  (The
encoder truncates 65535/65536 * 32767 = 32766.50002 to 32766, but decoding
divides by 32768.) -/
theorem C4_counterexample :
    (-1 ≤ (65535 : ℚ) / 65536) ∧ ((65535 : ℚ) / 65536 ≤ 1) ∧
    ¬ (|(65535 : ℚ) / 65536 - (sampleToInt16 ((65535 : ℚ) / 65536) : ℚ) / 32768| ≤
        1 / 32768) := by
  have hfl : ⌊(65535 : ℚ) / 65536 * 32767⌋ = 32766 := by
    rw [Int.floor_eq_iff]
    constructor <;> norm_num
  have hval : sampleToInt16 ((65535 : ℚ) / 65536) = 32766 := by
    have hc : max (-1) (min 1 ((65535 : ℚ) / 65536)) = (65535 : ℚ) / 65536 := by
      rw [min_eq_right (by norm_num), max_eq_right (by norm_num)]
    obtain ⟨h3, -, -⟩ := sampleToInt16_spec ((65535 : ℚ) / 65536)
    rw [h3, hc, if_neg (by norm_num), ratTrunc, if_neg (by norm_num), hfl]
  rw [hval]
  refine ⟨by norm_num, by norm_num, ?_⟩
  rw [not_le, show ((32766 : ℤ) : ℚ) = 32766 from by norm_num,
    abs_of_pos (by norm_num)]
  norm_num

/-- Claim C4, amended: decoding the transport encoding of any NONEMPTY
sample list (mono, at the decoder's defaults) preserves the array length
and yields one channel, and every sample in [-1, 1] is recovered to within
strictly less than TWO quantization steps (2/32768) of the original.  Two
parts of the original claim fail: the one-step bound fails (see the
counterexample) because non-negative samples are scaled by 32767 on encode
but divided by 32768 on decode, adding up to one extra step of error near
1 (the negative side, scaled and divided by the same 32768, does meet the
one-step bound); and at the empty array the round-trip does not produce a
buffer at all — `createBuffer` throws NotSupportedError on the zero frame
count, which the third conjunct records as the decode failing. -/
theorem C4_roundtrip (x : List ℚ) (q : ℚ) (hx : x ≠ []) (h1 : -1 ≤ q) (h2 : q ≤ 1) :
    decodeBase64 (float32ToBase64 x) = some (transportBytes x) ∧
    decodeAudioData (transportBytes x) 24000 1 =
      some ⟨24000, x.length, [x.map (fun v => ((sampleToInt16 v : ℚ) / 32768))]⟩ ∧
    decodeAudioData (transportBytes ([] : List ℚ)) 24000 1 = none ∧
    |q - (sampleToInt16 q : ℚ) / 32768| < 2 / 32768 := by
  refine ⟨transport_roundtrip x, ?_, rfl, ?_⟩
  · have hxpos : 0 < x.length := List.length_pos.mpr hx
    rw [decodeAudioData_mono _ _ (by rw [transportBytes_length]; omega)
        (by rw [transportBytes_length]; omega),
      bytesToInt16_transport, List.map_map, transportBytes_length]
    have hlen : 2 * x.length / 2 = x.length := by omega
    rw [hlen]
    rfl
  · have hc : max (-1) (min 1 q) = q := by rw [min_eq_right h2, max_eq_right h1]
    obtain ⟨h3, -, -⟩ := sampleToInt16_spec q
    rw [h3, hc]
    by_cases hq : q < 0
    · rw [if_pos hq]
      have hv : q * 32768 < 0 := by nlinarith
      have ha := self_le_ratTrunc _ hv
      have hb := ratTrunc_lt_self_add_one _ hv
      rw [abs_lt]
      constructor
      · linarith
      · linarith
    · rw [if_neg hq]
      have hq0 : 0 ≤ q := not_lt.mp hq
      have hv : 0 ≤ q * 32767 := by positivity
      have ha := ratTrunc_le_self _ hv
      have hb := lt_ratTrunc_add_one _ hv
      rw [abs_lt]
      constructor
      · linarith
      · linarith

/-- Witness for C4 (amended) at the concrete singleton list of the
sample 1/2. -/
theorem C4_witness :
    (([(1 : ℚ) / 2] : List ℚ) ≠ []) ∧ (-1 ≤ (1 : ℚ) / 2) ∧ ((1 : ℚ) / 2 ≤ 1) ∧
    |(1 : ℚ) / 2 - (sampleToInt16 ((1 : ℚ) / 2) : ℚ) / 32768| < 2 / 32768 :=
  ⟨by simp, by norm_num, by norm_num,
    (C4_roundtrip [(1 : ℚ) / 2] ((1 : ℚ) / 2) (by simp) (by norm_num)
      (by norm_num)).2.2.2⟩

/-- Claim C5: `connect()` with no configured credential classifies as an
authentication failure swallowed by the catch block (the caller never sees
a throw — the model returns the classification instead of propagating),
sets the error flag, leaves `isConnected` false, and never reaches
`ai.live.connect`, so no `onopen` can ever fire and the controller can
never become Open.  `getApiKey` yields no credential both when the
environment keys are absent and when they are empty strings. -/
theorem C5_connect_auth_failure (micOk : Bool) (s : LiveState) :
    getApiKey none none = none ∧
    getApiKey (some "") (some "") = none ∧
    (connect none micOk s).err = some ConnErr.authFailure ∧
    (connect none micOk s).state.isError = true ∧
    (connect none micOk s).state.isConnected = false ∧
    (connect none micOk s).liveStarted = false :=
  ⟨rfl, rfl, rfl, rfl, rfl, rfl⟩

/-- Counterexample to claim C6 as stated: six bytes with channel count 2
have a length that is NOT a multiple of the expected frame size
2 * 2 = 4, yet the decoder does not fail — `new Int16Array(buffer)` only
requires an even byte length, and the fractional frame count 1.5 is then
truncated by `createBuffer`. -/
theorem C6_counterexample :
    ((6 : Nat) % (2 * 2) ≠ 0) ∧
    decodeAudioData [0, 0, 0, 0, 0, 0] 24000 2 ≠ none := by
  refine ⟨by decide, ?_⟩
  simp [decodeAudioData, bytesToInt16]

/-- Claim C6, amended: the playback decoder fails exactly when the byte
length is odd (the `Int16Array` RangeError, the spec's `ShortBuffer`) or
the truncated frame count `byteLength/2 / numChannels` is zero (the
`createBuffer` NotSupportedError on a zero length) — NOT whenever the
length fails to be a multiple of `2 * numChannels`: an even length that
yields at least one complete frame is accepted, the fractional frame being
truncated.  For the mono default the two failure conditions together
coincide with the claim's on nonempty input.  On success it reinterprets
the bytes as little-endian 16-bit PCM, de-interleaves by channel count,
and normalizes each sample by dividing by 32768, as the last conjunct
states sample by sample. -/
theorem C6_decoder_spec (data : List Nat) (rate : ℚ) (ch : Nat) (hch : 0 < ch) :
    (decodeAudioData data rate ch = none ↔
      (data.length % 2 ≠ 0 ∨ data.length / 2 / ch = 0)) ∧
    (data.length % 2 = 0 → 0 < data.length / 2 / ch →
      (decodeAudioData data rate ch).map (fun b => (b.channels.length, b.frameCount)) =
        some (ch, data.length / 2 / ch)) ∧
    (∀ c i, c < ch → i < data.length / 2 / ch → data.length % 2 = 0 →
      (((decodeAudioData data rate ch).getD ⟨0, 0, []⟩).channels.getD c []).getD i 0 =
        (sint16 (data.getD (2 * (i * ch + c)) 0 +
          256 * data.getD (2 * (i * ch + c) + 1) 0) : ℚ) / 32768) := by
  have hlen := bytesToInt16_length data
  refine ⟨?_, ?_, ?_⟩
  · simp only [decodeAudioData]
    split
    next hodd => exact iff_of_true rfl (Or.inl hodd)
    next heven =>
      split
      next hzero => exact iff_of_true rfl (Or.inr (by rw [hlen] at hzero; exact hzero))
      next hnz =>
        simp only [reduceCtorEq, false_iff]
        rintro (hA | hB)
        · exact heven hA
        · exact hnz (by rw [hlen]; exact hB)
  · intro heven hfpos
    rw [decodeAudioData, if_neg (by omega),
      if_neg (by rw [hlen]; exact Nat.pos_iff_ne_zero.mp hfpos)]
    simp [hlen]
  · intro c i hc hi heven
    rw [decodeAudioData, if_neg (by omega),
      if_neg (by rw [hlen]; exact Nat.pos_iff_ne_zero.mp (Nat.zero_lt_of_lt hi))]
    simp only [Option.getD_some]
    rw [range_map_getD_lt ch _ [] c (by rw [hlen] at *; omega)]
    rw [range_map_getD_lt _ _ 0 i (by rw [hlen] at *; omega)]
    have hk : 2 * (i * ch + c) + 1 < data.length := by
      have h1 : i * ch + c < data.length / 2 / ch * ch := by
        have := Nat.succ_le_of_lt hi
        calc i * ch + c < (i + 1) * ch := by
              rw [Nat.succ_mul]
              omega
          _ ≤ data.length / 2 / ch * ch := Nat.mul_le_mul_right ch hi
      have h2 : data.length / 2 / ch * ch ≤ data.length / 2 := Nat.div_mul_le_self _ _
      omega
    rw [bytesToInt16_getD data (i * ch + c) hk]

/-- Witness for C6 (amended) at a concrete four-byte mono payload. -/
theorem C6_witness :
    (0 < 1) ∧
    (decodeAudioData [1, 0, 255, 255] 24000 1 = none ↔
      (([1, 0, 255, 255] : List Nat).length % 2 ≠ 0 ∨
        ([1, 0, 255, 255] : List Nat).length / 2 / 1 = 0)) :=
  ⟨by decide, (C6_decoder_spec [1, 0, 255, 255] 24000 1 (by decide)).1⟩

/-- The interruption step never touches the transcript. -/
theorem handleInterrupted_transcript (msg : LiveMsg) (s : LiveState) :
    (handleInterrupted msg s).1.transcript = s.transcript := by
  rw [handleInterrupted]
  split <;> rfl

/-- Counterexample to claim C7 as stated: `disconnect()` only drops the
session reference — it never closes the session, and the transcript path
of the `onmessage` callback carries no liveness guard — so a transcript
fragment delivered after `disconnect()` still mutates session state (the
conversation log grows).  Only the audio path is guarded (by the null
audio-context check). -/
theorem C7_counterexample :
    (onmessage 0 ⟨some "hello", none, none, false⟩
        (disconnect ⟨some 1, some (), some (), some (), ⟨5, [⟨0, 1⟩]⟩, true, false,
          []⟩).1).1.transcript ≠
      (disconnect ⟨some 1, some (), some (), some (), ⟨5, [⟨0, 1⟩]⟩, true, false,
        []⟩).1.transcript := by
  simp [onmessage, disconnect, handleLiveTranscript, handleInterrupted]

/-- Claim C7, amended: after `disconnect()` the playback scheduler can no
longer be mutated by the message handler — the audio path is disabled by
the null audio-context guard, an interruption finds nothing to stop, and
`isConnected` stays false — but the transcript path is NOT guarded: the
session is never closed by `disconnect()` (only dereferenced), and a
transcript fragment arriving afterwards is still appended (see the
counterexample), so not every asynchronous callback carries a liveness
check. -/
theorem C7_post_disconnect (s0 : LiveState) (t : ℚ) (msg : LiveMsg) :
    (disconnect s0).1.session = none ∧
    (disconnect s0).1.inputSource = none ∧
    (disconnect s0).1.processor = none ∧
    (disconnect s0).1.audioCtx = none ∧
    (onmessage t msg (disconnect s0).1).1.sched = ⟨0, []⟩ ∧
    (onmessage t msg (disconnect s0).1).2 = [] ∧
    (onmessage t msg (disconnect s0).1).1.isConnected = false := by
  refine ⟨rfl, rfl, rfl, rfl, ?_, ?_, ?_⟩ <;>
    rcases msg with ⟨it, ot, ad, intr⟩ <;>
    cases it <;> cases ot <;> cases ad <;> cases intr <;>
    simp [onmessage, disconnect, handleLiveTranscript, handleInterrupted]

/-- Claim C8: `disconnect()` is valid in any state and always ends with the
controller disconnected; calling it again immediately afterwards is a
no-op — the state is unchanged and no source remains to be stopped (and
the model is a total function: the only throwing call, `source.stop()`, is
wrapped in try/catch in the source and stopping is returned as data
here). -/
theorem C8_disconnect_idempotent (s : LiveState) :
    (disconnect s).1.isConnected = false ∧
    disconnect (disconnect s).1 = ((disconnect s).1, []) :=
  ⟨rfl, rfl⟩

/-- Claim C9: for every sequence of inbound transcript fragments, the
transcript sink gains exactly one entry per fragment, in arrival order,
with the role tag determined by the fragment's user flag; repeated
identical fragments are appended as separate entries (the count of any
entry grows additively — no deduplication). -/
theorem C9_transcript_sink (frags : List (String × Bool)) (s : LiveState) :
    (processFragments frags s).transcript = s.transcript ++ frags.map fragEntry ∧
    (processFragments frags s).transcript.length =
      s.transcript.length + frags.length ∧
    (∀ e : ChatMessage, (processFragments frags s).transcript.count e =
      s.transcript.count e + (frags.map fragEntry).count e) ∧
    (∀ text : String, fragEntry (text, true) = ⟨Role.user, text⟩ ∧
      fragEntry (text, false) = ⟨Role.model, text⟩) := by
  have hmain : ∀ (fr : List (String × Bool)) (st : LiveState),
      (processFragments fr st).transcript = st.transcript ++ fr.map fragEntry := by
    intro fr
    induction fr with
    | nil => intro st; simp [processFragments]
    | cons f rest ih =>
        intro st
        simp only [processFragments, List.foldl_cons] at *
        rw [ih]
        simp [handleLiveTranscript, fragEntry]
  refine ⟨hmain frags s, ?_, ?_, fun text => ⟨rfl, rfl⟩⟩
  · rw [hmain frags s]
    simp
  · intro e
    rw [hmain frags s]
    simp [List.count_append]

/-- Claim C10: when one inbound server message carries both an input
(user) transcription fragment and an output (model) transcription
fragment, the handler appends the user fragment strictly before the model
fragment, whatever else the message carries. -/
theorem C10_user_before_model (t : ℚ) (txtIn txtOut : String) (ad : Option String)
    (intr : Bool) (s : LiveState) :
    (onmessage t ⟨some txtIn, some txtOut, ad, intr⟩ s).1.transcript =
      s.transcript ++ [⟨Role.user, txtIn⟩, ⟨Role.model, txtOut⟩] := by
  cases ad with
  | none =>
      simp [onmessage, handleLiveTranscript, handleInterrupted_transcript]
  | some b64 =>
      simp only [onmessage, handleLiveTranscript]
      cases hctx : s.audioCtx with
      | none => simp [handleInterrupted_transcript]
      | some u =>
          cases hdb : decodeBase64 b64 with
          | none => simp [hdb, handleInterrupted_transcript]
          | some bytes =>
              cases hda : decodeAudioData bytes 24000 1 with
              | none => simp [hdb, hda, handleInterrupted_transcript]
              | some buffer => simp [hdb, hda, handleInterrupted_transcript]

end Diagnosphere
